import Mathlib

/-!
Shallow embedding of the `rustupscheck` program (src/main.rs, src/manifest.rs)
and proofs about its release-resolver, version model and parsing code.

Rust `String` values are modelled as `List Char` (byte-lexicographic order on
UTF-8 strings coincides with code-point lexicographic order), `HashMap` as an
association list looked up by first match, `NaiveDate` as an `Int` day number,
and code that can `panic!` (out-of-bounds indexing, `unwrap` on `Err`) returns
through the explicit `PanicOr` wrapper.
-/

namespace Rustupscheck

/-- Model of Rust `String` / `&str`. -/
abbrev Str := List Char

/-- Coerce a Lean string literal into the model type. -/
def str (s : String) : Str := s.data

/-- Outcome of Rust code that may panic: `panicked` models a `panic!`
(index out of bounds, `unwrap` on `Err`/`None`), `ok` a normal return. -/
inductive PanicOr (α : Type) where
  | panicked : PanicOr α
  | ok : α → PanicOr α
deriving DecidableEq

/-- Model of `HashMap::get`: first-match lookup in an association list. -/
def mapGet {α : Type} : List (Str × α) → Str → Option α
  | [], _ => none
  | (k, v) :: rest, key => if k = key then some v else mapGet rest key

/-- Model of `usize`/`u8` comparison via `Ord::cmp` on `Nat`. -/
def cmpNat (a b : Nat) : Ordering :=
  if a < b then .lt else if b < a then .gt else .eq

/-- Model of `NaiveDate::cmp`: chronological order on day numbers. -/
def cmpInt (a b : Int) : Ordering :=
  if a < b then .lt else if b < a then .gt else .eq

/-- Byte comparison of characters (code-point order). -/
def cmpChar (a b : Char) : Ordering :=
  if a < b then .lt else if b < a then .gt else .eq

/-- Model of Rust `String::cmp`: lexicographic byte order. -/
def cmpStr : Str → Str → Ordering
  | [], [] => .eq
  | [], _ :: _ => .lt
  | _ :: _, [] => .gt
  | a :: as, b :: bs =>
    match cmpChar a b with
    | .eq => cmpStr as bs
    | o => o

/-- The release channel, from `enum Channel` in src/main.rs. -/
inductive Channel where
  | Stable : Channel
  | Beta : Channel
  | Nightly : Channel
deriving DecidableEq, Fintype

/-- Model of `Channel::to_u8`. -/
def Channel.to_u8 : Channel → Nat
  | .Stable => 0
  | .Beta => 1
  | .Nightly => 2

/-- Model of `Channel::from_str` in src/main.rs: empty string means Stable. -/
def Channel.fromStr (s : Str) : Option Channel :=
  if s = str "stable" ∨ s = [] then some .Stable
  else if s = str "beta" then some .Beta
  else if s = str "nightly" then some .Nightly
  else none

/-- Model of `impl Ord for Channel`: compare the `to_u8` images. -/
def Channel.cmp (a b : Channel) : Ordering := cmpNat a.to_u8 b.to_u8

/-- A commit: hash plus commit date, from `struct Commit` in src/main.rs. -/
structure Commit where
  hash : Str
  date : Int
deriving DecidableEq

/-- Model of `impl Ord for Commit`: comparison looks at the date only. -/
def Commit.cmp (a b : Commit) : Ordering := cmpInt a.date b.date

/-- Model of `impl PartialEq for Commit`: equality looks at the date only. -/
def Commit.beq (a b : Commit) : Bool := a.date == b.date

/-- A parsed toolchain version, from `struct Version` in src/main.rs. -/
structure Version where
  channel : Channel
  version : Str
  commit : Commit
deriving DecidableEq

/-- Model of `impl Ord for Version`: channel, then version string, then commit. -/
def Version.cmp (a b : Version) : Ordering :=
  match Channel.cmp a.channel b.channel with
  | .gt => .gt
  | .lt => .lt
  | .eq =>
    match cmpStr a.version b.version with
    | .gt => .gt
    | .lt => .lt
    | .eq =>
      match Commit.cmp a.commit b.commit with
      | .gt => .gt
      | .lt => .lt
      | .eq => .eq

/-- Model of `impl PartialEq for Version`: channel, version string, commit date. -/
def Version.beq (a b : Version) : Bool :=
  a.channel == b.channel && a.version == b.version && a.commit.date == b.commit.date

/-- Sample versions used by the order witnesses. -/
def vA : Version := ⟨.Nightly, str "1.31.5", ⟨str "aaa", 100⟩⟩

/-- Second sample version: larger version string, earlier date. -/
def vB : Version := ⟨.Nightly, str "1.31.6", ⟨str "bbb", 90⟩⟩

/-- Third sample version: same string as vB, later date. -/
def vC : Version := ⟨.Nightly, str "1.31.6", ⟨str "ccc", 95⟩⟩

/-- Model of `str::split(sep)` (all occurrences, keeping empty pieces). -/
def splitOnAux (sep : Char) : List Char → List Char → List Str
  | [], acc => [acc.reverse]
  | x :: xs, acc =>
    if x = sep then acc.reverse :: splitOnAux sep xs [] else splitOnAux sep xs (x :: acc)

/-- Split a string at every occurrence of a separator character. -/
def splitOn (sep : Char) (s : Str) : List Str := splitOnAux sep s []

/-- Whitespace characters recognised by `str::split_whitespace`. -/
def isWsp (ch : Char) : Bool := ch = ' ' || ch = '\t' || ch = '\n' || ch = '\r'

/-- Model of `str::split_whitespace`: split on whitespace, dropping empties. -/
def splitWspAux : List Char → List Char → List Str
  | [], acc => if acc.isEmpty then [] else [acc.reverse]
  | x :: xs, acc =>
    if isWsp x then
      if acc.isEmpty then splitWspAux xs [] else acc.reverse :: splitWspAux xs []
    else splitWspAux xs (x :: acc)

/-- Entry point of the `split_whitespace` model. -/
def splitWsp (s : Str) : List Str := splitWspAux s []

/-- Characters trimmed around version tokens: parentheses. -/
def isParen (ch : Char) : Bool := ch = '(' || ch = ')'

/-- Model of `trim_matches(|c| c == '(' || c == ')')`. -/
def trimParens (t : Str) : Str :=
  ((t.dropWhile (fun ch => isParen ch)).reverse.dropWhile (fun ch => isParen ch)).reverse

/-- Numeric value of a digit string. -/
def digitsToNat (s : Str) : Nat :=
  s.foldl (fun a ch => a * 10 + (ch.toNat - 48)) 0

/-- Is every character a decimal digit. -/
def allDigits (s : Str) : Bool := s.all (fun ch => ch.isDigit)

/-- Leap-year rule of the proleptic Gregorian calendar used by chrono. -/
def isLeap (y : Int) : Bool := y % 4 == 0 && (y % 100 != 0 || y % 400 == 0)

/-- Number of days in a month. -/
def daysInMonth (y : Int) (m : Nat) : Nat :=
  match m with
  | 1 => 31
  | 2 => if isLeap y then 29 else 28
  | 3 => 31
  | 4 => 30
  | 5 => 31
  | 6 => 30
  | 7 => 31
  | 8 => 31
  | 9 => 30
  | 10 => 31
  | 11 => 30
  | 12 => 31
  | _ => 0

/-- Day number of a civil date (days since 1970-01-01, Hinnant's algorithm),
the model of a `NaiveDate` value. -/
def daysFromCivil (y : Int) (m d : Nat) : Int :=
  let yy : Int := if m ≤ 2 then y - 1 else y
  let era : Int := (if 0 ≤ yy then yy else yy - 399) / 400
  let yoe : Int := yy - era * 400
  let mp : Int := if 2 < m then (m : Int) - 3 else (m : Int) + 9
  let doy : Int := (153 * mp + 2) / 5 + (d : Int) - 1
  let doe : Int := yoe * 365 + yoe / 4 - yoe / 100 + doy
  era * 146097 + doe - 719468

/-- Model of `NaiveDate::parse_from_str(s, "%Y-%m-%d")`: year, month and day
fields split by hyphens, all digits, with calendar validity checks. -/
def parseDate (s : Str) : Option Int :=
  match splitOn '-' s with
  | [ys, ms, ds] =>
    if allDigits ys ∧ allDigits ms ∧ allDigits ds ∧
        ys ≠ [] ∧ ms ≠ [] ∧ ds ≠ [] ∧ ms.length ≤ 2 ∧ ds.length ≤ 2 then
      let y : Int := (digitsToNat ys : Int)
      let m := digitsToNat ms
      let d := digitsToNat ds
      if 1 ≤ m ∧ m ≤ 12 ∧ 1 ≤ d ∧ d ≤ daysInMonth y m then
        some (daysFromCivil y m d)
      else none
    else none
  | _ => none

/-- Body of `Version::from_str` (src/main.rs) after the whitespace split: the
token list is already paren-trimmed; indexing `split[0]`, `split[1]`,
`split[2]` panics when fewer than three tokens are present; the hash/date pair
is evaluated before the channel tag is checked. -/
def versionFromTokens : List Str → PanicOr (Except Str Version)
  | raw_version :: hash :: date :: _ =>
    let vc : Str × Str :=
      match splitOn '-' raw_version with
      | [v, c] => (v, c)
      | other => (other.headD [], [])
    match parseDate date with
    | none => .ok (.error (str "ParseError"))
    | some d =>
      match Channel.fromStr vc.2 with
      | none => .ok (.error (str "Wrong channel"))
      | some channel => .ok (.ok ⟨channel, vc.1, ⟨hash, d⟩⟩)
  | _ => .panicked

/-- Model of `impl FromStr for Version` (src/main.rs): split on whitespace,
trim parens from every token, then process the first three tokens. -/
def versionFromStr (s : Str) : PanicOr (Except Str Version) :=
  versionFromTokens ((splitWsp s).map trimParens)

/-- Per-target availability record, from `struct PackageInfo`. -/
structure PackageInfo where
  available : Bool
  url : Option Str
  hash : Option Str
  xz_url : Option Str
  xz_hash : Option Str
deriving DecidableEq

/-- Per-package record, from `struct PackageTargets` (src/main.rs: the version
is kept as its raw string and parsed lazily). -/
structure PackageTargets where
  version : Str
  target : List (Str × PackageInfo)
deriving DecidableEq

/-- Component rename entry, from `struct Rename`. -/
structure Rename where
  «to» : Str
deriving DecidableEq

/-- One release descriptor, from `struct Manifest` (src/main.rs). -/
structure Manifest where
  manifest_version : Nat
  date : Int
  pkg : List (Str × PackageTargets)
  renames : List (Str × Rename)
deriving DecidableEq

/-- Model of `Manifest::get_pkg_for_target`: package lookup, then target
lookup with fallback to the `"*"` wildcard entry. -/
def Manifest.get_pkg_for_target (m : Manifest) (pkg tgt : Str) : Option PackageInfo :=
  match mapGet m.pkg pkg with
  | some package_target =>
    match mapGet package_target.target tgt with
    | some package_info => some package_info
    | none =>
      match mapGet package_target.target (str "*") with
      | some package_info => some package_info
      | none => none
  | none => none

/-- Model of `Manifest::get_pkg_version`: absent package is an `Err`, else the
raw version string is parsed (which may itself panic). -/
def Manifest.get_pkg_version (m : Manifest) (name : Str) : PanicOr (Except Str Version) :=
  match mapGet m.pkg name with
  | none => .ok (.error (str "Manifest not contain pkg"))
  | some pkg => versionFromStr pkg.version

/-- An installed component, from `struct Component`. -/
structure Component where
  name : Str
  required : Bool
  version : Version
deriving DecidableEq

/-- Model of `Component::from` (src/main.rs): rustc and cargo are required,
and `get_pkg_version(name).unwrap()` panics when the lookup or parse fails. -/
def componentFrom (manifest : Manifest) (name : Str) : PanicOr Component :=
  let required : Bool := name == str "rustc" || name == str "cargo"
  match manifest.get_pkg_version name with
  | .panicked => .panicked
  | .ok (.error _) => .panicked
  | .ok (.ok version) => .ok ⟨name, required, version⟩

/-- The local toolchain snapshot, from `struct Toolchain`. -/
structure Toolchain where
  channel : Str
  target : Str
  components : List Component
  manifest : Manifest
deriving DecidableEq

/-- The scan state, from `struct Rust` (src/main.rs): a day offset, the cursor
date, the immutable snapshot, and the fetched manifest for the cursor date. -/
structure Rust where
  offset : Int
  date : Int
  toolchain : Toolchain
  manifest : Option Manifest
deriving DecidableEq

/-- The filter predicate inside `Rust::missing_components`: substitute the
rename target when present, resolve availability for the snapshot's target;
missing iff unresolved or unavailable. -/
def componentMissing (manifest : Manifest) (tgt : Str) (c : Str) : Bool :=
  let component : Str :=
    match mapGet manifest.renames c with
    | some rename => rename.«to»
    | none => c
  match manifest.get_pkg_for_target component tgt with
  | some package_info => !package_info.available
  | none => true

/-- Model of `Rust::missing_components`: with a manifest, filter the installed
component names by the missing predicate; without one, return the empty list. -/
def Rust.missing_components (r : Rust) : List Str :=
  match r.manifest with
  | some manifest =>
    (r.toolchain.components.map (fun c => c.name)).filter
      (fun c => componentMissing manifest r.toolchain.target c)
  | none => []

/-- Model of `Rust::manifest_pkg_version`: `.ok()` absorbs a parse `Err` into
`None`; a `panic!` inside the parse still propagates. -/
def Rust.manifest_pkg_version (r : Rust) (name : Str) : PanicOr (Option Version) :=
  match r.manifest with
  | some m =>
    match m.get_pkg_version name with
    | .panicked => .panicked
    | .ok res => .ok res.toOption
  | none => .ok none

/-- Model of `Option::<Version>::lt` (derived `PartialOrd`): `None` is smaller
than any `Some`. -/
def optVersionLt (a b : Option Version) : Bool :=
  match a, b with
  | none, none => false
  | none, some _ => true
  | some _, none => false
  | some x, some y => Version.cmp x y == .lt

/-- The three output branches of the final `match` in `main`. -/
inductive Recommendation where
  | update : Recommendation
  | upToDate : Recommendation
  | pinDefault : Recommendation
deriving DecidableEq

/-- Model of the final `match` in `main` (src/main.rs lines 533-551): update
only when the qualifying offset is 0 and the installed "rust" version compares
strictly below the found manifest's; up-to-date when the offset is 0 otherwise;
every other offset prints the "rustup default" pin instruction. -/
def recommend (v : Rust) : PanicOr Recommendation :=
  match v.toolchain.manifest.get_pkg_version (str "rust") with
  | .panicked => .panicked
  | .ok installed =>
    match v.manifest_pkg_version (str "rust") with
    | .panicked => .panicked
    | .ok found =>
      if v.offset = 0 then
        if optVersionLt installed.toOption found then .ok .update else .ok .upToDate
      else .ok .pinDefault

/-- Model of `impl Iterator for Rust::next` (src/main.rs lines 186-200): bump
the offset, move the cursor one day earlier, fetch that day's manifest, and
always yield `Some` of the new state. -/
def Rust.next (today : Int) (fetch : Int → Option Manifest) (r : Rust) : Rust × Option Rust :=
  let offset := r.offset + 1
  let date := today - offset
  let r2 : Rust :=
    { offset := offset, date := date, toolchain := r.toolchain, manifest := fetch date }
  (r2, some r2)

/-- Model of `Rust::new`: offset -1, cursor at today, manifest fetched for today. -/
def rustNew (today : Int) (fetch : Int → Option Manifest) (tc : Toolchain) : Rust :=
  { offset := -1, date := today, toolchain := tc, manifest := fetch today }

/-- The filter predicate of the scan in `main`: a manifest was fetched and no
installed component is missing. -/
def qualifies (r : Rust) : Bool := r.manifest.isSome && r.missing_components.isEmpty

/-- Model of `.filter(..).nth(0)` over the `Rust` iterator, with explicit fuel:
pull states one at a time and return the first that qualifies. -/
def searchAux (today : Int) (fetch : Int → Option Manifest) : Nat → Rust → Option Rust
  | 0, _ => none
  | fuel + 1, r =>
    match Rust.next today fetch r with
    | (_, none) => none
    | (r2, some item) =>
      if qualifies item then some item else searchAux today fetch fuel r2

/-- The scan of `main`: start from `Rust::new` and take the first qualifying
state within `fuel` steps. -/
def searchFirst (today : Int) (fetch : Int → Option Manifest) (tc : Toolchain)
    (fuel : Nat) : Option Rust :=
  searchAux today fetch fuel (rustNew today fetch tc)

/-- The scan state whose offset is the integer i. -/
def stateAt (today : Int) (fetch : Int → Option Manifest) (tc : Toolchain) (i : Int) : Rust :=
  { offset := i, date := today - i, toolchain := tc, manifest := fetch (today - i) }

/-- The scan state visited at step k (k days before today). -/
def nthState (today : Int) (fetch : Int → Option Manifest) (tc : Toolchain) (k : Nat) : Rust :=
  stateAt today fetch tc (k : Int)

/-- An always-available package entry. -/
def availInfo : PackageInfo := ⟨true, none, none, none, none⟩

/-- An unavailable package entry. -/
def unavailInfo : PackageInfo := ⟨false, none, none, none, none⟩

/-- The installed rust version of the resolver scenario (2019-01-10). -/
def instVer : Version := ⟨.Nightly, str "1.33.0", ⟨str "aaa", daysFromCivil 2019 1 10⟩⟩

/-- The rust version published yesterday in the resolver scenario (2019-01-11). -/
def yVer : Version := ⟨.Nightly, str "1.34.0", ⟨str "bbb", daysFromCivil 2019 1 11⟩⟩

/-- The locally installed descriptor of the resolver scenario. -/
def mInstalled : Manifest :=
  ⟨2, daysFromCivil 2019 1 10,
   [(str "rust", ⟨str "1.33.0-nightly (aaa 2019-01-10)", [(str "T", availInfo)]⟩)],
   []⟩

/-- Today's descriptor: clippy is unavailable for the target. -/
def mToday : Manifest :=
  ⟨2, 0,
   [(str "rust", ⟨str "1.34.0-nightly (ccc 2019-01-12)", [(str "T", availInfo)]⟩),
    (str "rustc", ⟨str "1.34.0-nightly (ccc 2019-01-12)", [(str "T", availInfo)]⟩),
    (str "cargo", ⟨str "0.35.0-nightly (x 2019-01-12)", [(str "T", availInfo)]⟩),
    (str "clippy", ⟨str "0.0.1 (y 2019-01-12)", [(str "T", unavailInfo)]⟩)],
   []⟩

/-- Yesterday's descriptor: everything available, rust newer than installed. -/
def mYesterday : Manifest :=
  ⟨2, -1,
   [(str "rust", ⟨str "1.34.0-nightly (bbb 2019-01-11)", [(str "T", availInfo)]⟩),
    (str "rustc", ⟨str "1.34.0-nightly (bbb 2019-01-11)", [(str "T", availInfo)]⟩),
    (str "cargo", ⟨str "0.35.0-nightly (x 2019-01-11)", [(str "T", availInfo)]⟩),
    (str "clippy", ⟨str "0.0.1 (y 2019-01-11)", [(str "T", availInfo)]⟩)],
   []⟩

/-- The snapshot of the resolver scenario: rustc and cargo required, clippy not. -/
def tc₀ : Toolchain :=
  ⟨str "nightly", str "T",
   [⟨str "rustc", true, instVer⟩, ⟨str "cargo", true, instVer⟩,
    ⟨str "clippy", false, instVer⟩],
   mInstalled⟩

/-- The release source of the resolver scenario: day 0 is today, day -1 is
yesterday, nothing else is published. -/
def fetch₀ : Int → Option Manifest := fun d =>
  if d = 0 then some mToday else if d = -1 then some mYesterday else none

/-- A release source that never returns a descriptor. -/
def emptyFetch : Int → Option Manifest := fun _ => none

/-- A scan state whose date had no publication. -/
def noManifestState : Rust := ⟨0, 0, tc₀, none⟩

deriving instance DecidableEq for Except

/-- A manifest carrying the rls → rls-preview rename. -/
def mRls : Manifest :=
  ⟨2, 0, [(str "rls-preview", ⟨str "", [(str "T", availInfo)]⟩)],
   [(str "rls", ⟨str "rls-preview"⟩)]⟩

/-- A manifest whose only target entry is the wildcard. -/
def mStar : Manifest :=
  ⟨2, 0, [(str "rust-src", ⟨str "", [(str "*", availInfo)]⟩)], []⟩

/-- Did parsing produce a well-formed version (neither panic nor error). -/
def isOkVersion : PanicOr (Except Str Version) → Bool
  | .ok (.ok _) => true
  | _ => false

/-- Rewrite every package's raw version string of a manifest. -/
def setVersions (f : Str → Str) (m : Manifest) : Manifest :=
  ⟨m.manifest_version, m.date, m.pkg.map (fun kv => (kv.1, ⟨f kv.2.version, kv.2.target⟩)),
   m.renames⟩

/-- A descriptor whose clippy package carries a malformed version string. -/
def badManifest : Manifest :=
  ⟨2, 0, [(str "clippy", ⟨str "1.0.0-foo (h 2019-01-01)", [(str "T", availInfo)]⟩)], []⟩

/-- Model of `splitn(2, sep)`: the piece before the first separator and the
whole remainder, or nothing when the separator does not occur. -/
def splitnFirst (sep : Char) : List Char → Option (Str × Str)
  | [] => none
  | x :: xs =>
    if x = sep then some ([], xs)
    else
      match splitnFirst sep xs with
      | some (a, b) => some (x :: a, b)
      | none => none

/-- Model of `get_channel_target` (src/main.rs): `splitn(2, '-')` yields two
pieces exactly when the toolchain string contains a hyphen; the `split[1]`
index panics otherwise. -/
def get_channel_target (toolchain : Str) : PanicOr (Str × Str) :=
  match splitnFirst '-' toolchain with
  | some (channel, target) => .ok (channel, target)
  | none => .panicked

theorem cmpNat_eq_iff {a b : Nat} : cmpNat a b = .eq ↔ a = b := by
  unfold cmpNat; (repeat' split) <;> simp <;> omega

theorem cmpNat_lt_iff {a b : Nat} : cmpNat a b = .lt ↔ a < b := by
  unfold cmpNat; (repeat' split) <;> simp <;> omega

theorem cmpNat_gt_iff {a b : Nat} : cmpNat a b = .gt ↔ b < a := by
  unfold cmpNat; (repeat' split) <;> simp <;> omega

theorem cmpInt_eq_iff {a b : Int} : cmpInt a b = .eq ↔ a = b := by
  unfold cmpInt; (repeat' split) <;> simp <;> omega

theorem cmpInt_lt_iff {a b : Int} : cmpInt a b = .lt ↔ a < b := by
  unfold cmpInt; (repeat' split) <;> simp <;> omega

theorem cmpInt_gt_iff {a b : Int} : cmpInt a b = .gt ↔ b < a := by
  unfold cmpInt; (repeat' split) <;> simp <;> omega

theorem cmpChar_eq_iff {a b : Char} : cmpChar a b = .eq ↔ a = b := by
  unfold cmpChar
  split
  · next h =>
    constructor
    · intro hc; cases hc
    · intro he; subst he; exact absurd h (lt_irrefl a)
  · next h1 =>
    split
    · next h2 =>
      constructor
      · intro hc; cases hc
      · intro he; subst he; exact absurd h2 (lt_irrefl a)
    · next h2 =>
      constructor
      · intro _; exact le_antisymm (le_of_not_lt h2) (le_of_not_lt h1)
      · intro _; rfl

theorem cmpChar_lt_iff {a b : Char} : cmpChar a b = .lt ↔ a < b := by
  unfold cmpChar
  split
  · next h => simp [h]
  · next h1 =>
    split
    · next h2 =>
      constructor
      · intro hc; cases hc
      · intro h; exact absurd h h1
    · next h2 =>
      constructor
      · intro hc; cases hc
      · intro h; exact absurd h h1

theorem cmpChar_gt_iff {a b : Char} : cmpChar a b = .gt ↔ b < a := by
  unfold cmpChar
  split
  · next h =>
    constructor
    · intro hc; cases hc
    · intro hba; exact absurd (lt_trans h hba) (lt_irrefl a)
  · next h1 =>
    split
    · next h2 => simp [h2]
    · next h2 =>
      constructor
      · intro hc; cases hc
      · intro hba; exact absurd hba h2

theorem cmpStr_eq_iff : ∀ s t : Str, cmpStr s t = .eq ↔ s = t := by
  intro s
  induction s with
  | nil => intro t; cases t <;> simp [cmpStr]
  | cons a as ih =>
    intro t
    cases t with
    | nil => simp [cmpStr]
    | cons b bs =>
      simp only [cmpStr]
      rcases hc : cmpChar a b with _ | _ | _
      · constructor
        · intro h; cases h
        · intro h
          injection h with h1 h2
          rw [h1, cmpChar_eq_iff.2 rfl] at hc
          cases hc
      · rw [cmpChar_eq_iff] at hc
        subst hc
        constructor
        · intro h; rw [(ih bs).1 h]
        · intro h
          injection h with h1 h2
          exact (ih bs).2 h2
      · constructor
        · intro h; cases h
        · intro h
          injection h with h1 h2
          rw [h1, cmpChar_eq_iff.2 rfl] at hc
          cases hc

theorem cmpStr_lt_gt : ∀ s t : Str, cmpStr s t = .lt ↔ cmpStr t s = .gt := by
  intro s
  induction s with
  | nil => intro t; cases t <;> simp [cmpStr]
  | cons a as ih =>
    intro t
    cases t with
    | nil => simp [cmpStr]
    | cons b bs =>
      simp only [cmpStr]
      rcases hc : cmpChar a b with _ | _ | _
      · rw [cmpChar_lt_iff] at hc
        rw [cmpChar_gt_iff.2 hc]
        simp
      · rw [cmpChar_eq_iff] at hc
        subst hc
        rw [cmpChar_eq_iff.2 rfl]
        exact ih bs
      · rw [cmpChar_gt_iff] at hc
        rw [cmpChar_lt_iff.2 hc]
        simp

theorem cmpStr_lt_trans :
    ∀ s t u : Str, cmpStr s t = .lt → cmpStr t u = .lt → cmpStr s u = .lt := by
  intro s
  induction s with
  | nil =>
    intro t u hst htu
    cases t with
    | nil => exact htu
    | cons b bs =>
      cases u with
      | nil => simp [cmpStr] at htu
      | cons c cs => simp [cmpStr]
  | cons a as ih =>
    intro t u hst htu
    cases t with
    | nil => simp [cmpStr] at hst
    | cons b bs =>
      cases u with
      | nil => simp [cmpStr] at htu
      | cons c cs =>
        simp only [cmpStr] at hst htu ⊢
        rcases hab : cmpChar a b with _ | _ | _ <;> rw [hab] at hst <;> try cases hst
        all_goals rcases hbc : cmpChar b c with _ | _ | _ <;> rw [hbc] at htu <;> try cases htu
        · rw [cmpChar_lt_iff] at hab hbc
          rw [cmpChar_lt_iff.2 (lt_trans hab hbc)]
        · rw [cmpChar_eq_iff] at hbc
          subst hbc
          rw [hab]
        · rw [cmpChar_eq_iff] at hab
          subst hab
          rw [hbc]
        · rw [cmpChar_eq_iff] at hab
          subst hab
          rw [hbc]
          exact ih bs cs hst htu

theorem cmpStr_refl (s : Str) : cmpStr s s = .eq := (cmpStr_eq_iff s s).2 rfl

theorem cmpInt_refl (a : Int) : cmpInt a a = .eq := (cmpInt_eq_iff).2 rfl

theorem cmpInt_lt_gt {a b : Int} : cmpInt a b = .lt ↔ cmpInt b a = .gt := by
  rw [cmpInt_lt_iff, cmpInt_gt_iff]

theorem cmpInt_lt_trans {a b c : Int} :
    cmpInt a b = .lt → cmpInt b c = .lt → cmpInt a c = .lt := by
  rw [cmpInt_lt_iff, cmpInt_lt_iff, cmpInt_lt_iff]; omega

theorem channel_cmp_eq_iff : ∀ a b : Channel, Channel.cmp a b = .eq ↔ a = b := by decide

theorem channel_cmp_lt_gt : ∀ a b : Channel, Channel.cmp a b = .lt ↔ Channel.cmp b a = .gt := by
  decide

theorem channel_cmp_lt_trans : ∀ a b c : Channel,
    Channel.cmp a b = .lt → Channel.cmp b c = .lt → Channel.cmp a c = .lt := by decide

theorem channel_cmp_refl (a : Channel) : Channel.cmp a a = .eq := (channel_cmp_eq_iff a a).2 rfl

theorem version_cmp_eq_iff (a b : Version) :
    Version.cmp a b = .eq ↔
      a.channel = b.channel ∧ a.version = b.version ∧ a.commit.date = b.commit.date := by
  unfold Version.cmp
  rcases h1 : Channel.cmp a.channel b.channel with _ | _ | _
  · constructor
    · intro h; cases h
    · rintro ⟨hc, -, -⟩
      rw [hc, channel_cmp_refl] at h1
      cases h1
  · rcases h2 : cmpStr a.version b.version with _ | _ | _
    · constructor
      · intro h; cases h
      · rintro ⟨-, hv, -⟩
        rw [hv, cmpStr_refl] at h2
        cases h2
    · rcases h3 : Commit.cmp a.commit b.commit with _ | _ | _
      · constructor
        · intro h; cases h
        · rintro ⟨-, -, hd⟩
          unfold Commit.cmp at h3
          rw [hd, cmpInt_refl] at h3
          cases h3
      · constructor
        · intro _
          refine ⟨(channel_cmp_eq_iff a.channel b.channel).1 h1, (cmpStr_eq_iff _ _).1 h2, ?_⟩
          unfold Commit.cmp at h3
          exact cmpInt_eq_iff.1 h3
        · intro _; rfl
      · constructor
        · intro h; cases h
        · rintro ⟨-, -, hd⟩
          unfold Commit.cmp at h3
          rw [hd, cmpInt_refl] at h3
          cases h3
    · constructor
      · intro h; cases h
      · rintro ⟨-, hv, -⟩
        rw [hv, cmpStr_refl] at h2
        cases h2
  · constructor
    · intro h; cases h
    · rintro ⟨hc, -, -⟩
      rw [hc, channel_cmp_refl] at h1
      cases h1

theorem version_beq_iff (a b : Version) :
    Version.beq a b = true ↔
      a.channel = b.channel ∧ a.version = b.version ∧ a.commit.date = b.commit.date := by
  unfold Version.beq
  simp [Bool.and_eq_true, and_assoc]

theorem version_cmp_lt_gt (a b : Version) :
    Version.cmp a b = .lt ↔ Version.cmp b a = .gt := by
  unfold Version.cmp
  rcases h1 : Channel.cmp a.channel b.channel with _ | _ | _
  · rw [(channel_cmp_lt_gt a.channel b.channel).1 h1]
    simp
  · have hc : a.channel = b.channel := (channel_cmp_eq_iff _ _).1 h1
    have h1a : Channel.cmp b.channel a.channel = .eq := by
      rw [← hc]; exact channel_cmp_refl a.channel
    rw [h1a]
    rcases h2 : cmpStr a.version b.version with _ | _ | _
    · rw [(cmpStr_lt_gt a.version b.version).1 h2]
      simp
    · have hv : a.version = b.version := (cmpStr_eq_iff _ _).1 h2
      have h2a : cmpStr b.version a.version = .eq := by
        rw [← hv]; exact cmpStr_refl a.version
      rw [h2a]
      unfold Commit.cmp
      rcases h3 : cmpInt a.commit.date b.commit.date with _ | _ | _
      · rw [cmpInt_lt_gt.1 h3]
        simp
      · have hd : a.commit.date = b.commit.date := cmpInt_eq_iff.1 h3
        have h3a : cmpInt b.commit.date a.commit.date = .eq := by
          rw [← hd]; exact cmpInt_refl a.commit.date
        rw [h3a]
        simp
      · have h3a : cmpInt b.commit.date a.commit.date = .lt := cmpInt_lt_gt.2 h3
        rw [h3a]
        simp
    · have h2a : cmpStr b.version a.version = .lt := (cmpStr_lt_gt b.version a.version).2 h2
      rw [h2a]
      simp
  · have h1a : Channel.cmp b.channel a.channel = .lt := (channel_cmp_lt_gt b.channel a.channel).2 h1
    rw [h1a]
    simp

theorem version_cmp_lt_trans (a b c : Version) :
    Version.cmp a b = .lt → Version.cmp b c = .lt → Version.cmp a c = .lt := by
  intro hab hbc
  unfold Version.cmp at hab hbc ⊢
  rcases h1 : Channel.cmp a.channel b.channel with _ | _ | _ <;> rw [h1] at hab <;>
    try cases hab
  all_goals rcases h2 : Channel.cmp b.channel c.channel with _ | _ | _ <;> rw [h2] at hbc <;>
    try cases hbc
  · rw [channel_cmp_lt_trans a.channel b.channel c.channel h1 h2]
  · have hc : b.channel = c.channel := (channel_cmp_eq_iff _ _).1 h2
    rw [← hc, h1]
  · have hc : a.channel = b.channel := (channel_cmp_eq_iff _ _).1 h1
    rw [hc, h2]
  · have hc1 : a.channel = b.channel := (channel_cmp_eq_iff _ _).1 h1
    have hc2 : b.channel = c.channel := (channel_cmp_eq_iff _ _).1 h2
    rw [hc1, hc2, channel_cmp_refl]
    rcases h3 : cmpStr a.version b.version with _ | _ | _ <;> rw [h3] at hab <;> try cases hab
    all_goals rcases h4 : cmpStr b.version c.version with _ | _ | _ <;> rw [h4] at hbc <;>
      try cases hbc
    · rw [cmpStr_lt_trans a.version b.version c.version h3 h4]
    · have hv : b.version = c.version := (cmpStr_eq_iff _ _).1 h4
      rw [← hv, h3]
    · have hv : a.version = b.version := (cmpStr_eq_iff _ _).1 h3
      rw [hv, h4]
    · have hv1 : a.version = b.version := (cmpStr_eq_iff _ _).1 h3
      have hv2 : b.version = c.version := (cmpStr_eq_iff _ _).1 h4
      rw [hv1, hv2, cmpStr_refl]
      unfold Commit.cmp at hab hbc ⊢
      rcases h5 : cmpInt a.commit.date b.commit.date with _ | _ | _ <;> rw [h5] at hab <;>
        try cases hab
      all_goals rcases h6 : cmpInt b.commit.date c.commit.date with _ | _ | _ <;>
        rw [h6] at hbc <;> try cases hbc
      · rw [cmpInt_lt_trans h5 h6]

theorem version_beq_iff_cmp (a b : Version) :
    Version.beq a b = true ↔ Version.cmp a b = .eq :=
  (version_beq_iff a b).trans (version_cmp_eq_iff a b).symm

/-- C6: version comparison is a strict total order consistent with equality:
for any versions a, b, c exactly one of a<b, a=b (by `PartialEq`, hash ignored),
a>b holds; a<b and b<c imply a<c; and equal versions compare neither greater
nor less (they compare `Equal` both ways). -/
theorem version_order_strict_total (a b c : Version) :
    ((Version.cmp a b = .lt ∧ Version.beq a b = false ∧ Version.cmp a b ≠ .gt) ∨
     (Version.beq a b = true ∧ Version.cmp a b ≠ .lt ∧ Version.cmp a b ≠ .gt) ∨
     (Version.cmp a b = .gt ∧ Version.beq a b = false ∧ Version.cmp a b ≠ .lt)) ∧
    (Version.cmp a b = .lt → Version.cmp b c = .lt → Version.cmp a c = .lt) ∧
    (Version.beq a b = true → Version.cmp a b = .eq ∧ Version.cmp b a = .eq) := by
  refine ⟨?_, version_cmp_lt_trans a b c, ?_⟩
  · rcases h : Version.cmp a b with _ | _ | _
    · left
      refine ⟨rfl, ?_, by simp⟩
      cases hb : Version.beq a b
      · rfl
      · rw [(version_beq_iff_cmp a b).1 hb] at h
        cases h
    · right; left
      exact ⟨(version_beq_iff_cmp a b).2 h, by simp, by simp⟩
    · right; right
      refine ⟨rfl, ?_, by simp⟩
      cases hb : Version.beq a b
      · rfl
      · rw [(version_beq_iff_cmp a b).1 hb] at h
        cases h
  · intro hb
    have he : Version.cmp a b = .eq := (version_beq_iff_cmp a b).1 hb
    have hba : Version.beq b a = true := by
      rw [version_beq_iff] at hb ⊢
      exact ⟨hb.1.symm, hb.2.1.symm, hb.2.2.symm⟩
    exact ⟨he, (version_beq_iff_cmp b a).1 hba⟩

/-- Witness for C6 at concrete versions: transitivity applied through vB. -/
theorem version_order_strict_total_witness : Version.cmp vA vC = .lt :=
  (version_order_strict_total vA vB vC).2.1 (by decide) (by decide)

/-- C7: commit equality and ordering are determined by the date field alone;
hashes never participate. -/
theorem commit_order_by_date_only (c₁ c₂ : Commit) :
    (c₁.date = c₂.date → Commit.beq c₁ c₂ = true ∧ Commit.cmp c₁ c₂ = .eq) ∧
    (c₁.date < c₂.date → Commit.cmp c₁ c₂ = .lt) := by
  constructor
  · intro h
    constructor
    · unfold Commit.beq
      exact beq_iff_eq.2 h
    · unfold Commit.cmp
      rw [h]
      exact cmpInt_refl _
  · intro h
    unfold Commit.cmp
    exact cmpInt_lt_iff.2 h

/-- Witness for C7: same date but different hashes → equal; earlier date → less. -/
theorem commit_order_by_date_only_witness :
    Commit.beq ⟨str "aaa", 100⟩ ⟨str "bbb", 100⟩ = true ∧
    Commit.cmp ⟨str "aaa", 100⟩ ⟨str "bbb", 100⟩ = .eq ∧
    Commit.cmp ⟨str "ccc", 99⟩ ⟨str "ddd", 100⟩ = .lt := by
  refine ⟨((commit_order_by_date_only ⟨str "aaa", 100⟩ ⟨str "bbb", 100⟩).1 rfl).1,
    ((commit_order_by_date_only ⟨str "aaa", 100⟩ ⟨str "bbb", 100⟩).1 rfl).2,
    (commit_order_by_date_only ⟨str "ccc", 99⟩ ⟨str "ddd", 100⟩).2 (by decide)⟩

theorem searchAux_succ (today : Int) (fetch : Int → Option Manifest) (fuel : Nat) (r : Rust) :
    searchAux today fetch (fuel + 1) r =
      if qualifies (stateAt today fetch r.toolchain (r.offset + 1))
      then some (stateAt today fetch r.toolchain (r.offset + 1))
      else searchAux today fetch fuel (stateAt today fetch r.toolchain (r.offset + 1)) := rfl

theorem searchAux_some (today : Int) (fetch : Int → Option Manifest) (tc : Toolchain) :
    ∀ (fuel : Nat) (i : Nat) (r : Rust), r.toolchain = tc → r.offset = (i : Int) - 1 →
      ∀ v : Rust, searchAux today fetch fuel r = some v →
      ∃ k : Nat, i ≤ k ∧ k < i + fuel ∧ v = nthState today fetch tc k ∧
        qualifies v = true ∧
        ∀ j : Nat, i ≤ j → j < k → qualifies (nthState today fetch tc j) = false := by
  intro fuel
  induction fuel with
  | zero =>
    intro i r htc hoff v h
    simp [searchAux] at h
  | succ fuel ih =>
    intro i r htc hoff v h
    rw [searchAux_succ, htc, hoff] at h
    have hoff1 : ((i : Int) - 1) + 1 = (i : Int) := by ring
    rw [hoff1] at h
    split at h
    · next hq =>
      injection h with h
      refine ⟨i, le_refl i, by omega, ?_, ?_, ?_⟩
      · rw [← h]; rfl
      · rw [← h]; exact hq
      · intro j hij hji
        exact absurd hji (by omega)
    · next hq =>
      obtain ⟨k, hik, hkf, hv, hqv, hall⟩ :=
        ih (i + 1) (stateAt today fetch tc (i : Int)) rfl
          (by simp only [stateAt]; push_cast; ring) v h
      refine ⟨k, by omega, by omega, hv, hqv, ?_⟩
      intro j hij hjk
      rcases Nat.eq_or_lt_of_le hij with heq | hlt
      · subst heq
        cases hb : qualifies (nthState today fetch tc i)
        · rfl
        · exact absurd hb hq
      · exact hall j (by omega) hjk

theorem searchFirst_some (today : Int) (fetch : Int → Option Manifest) (tc : Toolchain)
    (fuel : Nat) (v : Rust) (h : searchFirst today fetch tc fuel = some v) :
    ∃ k : Nat, k < fuel ∧ v = nthState today fetch tc k ∧ qualifies v = true ∧
      ∀ j : Nat, j < k → qualifies (nthState today fetch tc j) = false := by
  obtain ⟨k, h0, hk, hv, hq, hall⟩ :=
    searchAux_some today fetch tc fuel 0 (rustNew today fetch tc) rfl (by norm_num [rustNew]) v h
  exact ⟨k, by omega, hv, hq, fun j hj => hall j (Nat.zero_le j) hj⟩

/-- C3: the scan visits candidate dates strictly descending, one day per step
starting at today, stops at the first date whose fetched descriptor leaves no
installed component missing, and therefore returns the qualifying date nearest
to the start date. -/
theorem scan_returns_nearest_qualifying (today : Int) (fetch : Int → Option Manifest)
    (tc : Toolchain) (fuel : Nat) (v : Rust)
    (h : searchFirst today fetch tc fuel = some v) :
    ∃ k : Nat, v = nthState today fetch tc k ∧ v.offset = (k : Int) ∧
      v.date = today - (k : Int) ∧ v.manifest = fetch (today - (k : Int)) ∧
      v.manifest.isSome = true ∧ v.missing_components = [] ∧
      ∀ j : Nat, j < k → qualifies (nthState today fetch tc j) = false := by
  obtain ⟨k, hk, hv, hq, hall⟩ := searchFirst_some today fetch tc fuel v h
  subst hv
  unfold qualifies at hq
  rw [Bool.and_eq_true] at hq
  refine ⟨k, rfl, rfl, rfl, rfl, hq.1, ?_, hall⟩
  exact List.isEmpty_iff.1 hq.2

/-- C2 amended: the scan has no exhaustion outcome at all: the iterator always
yields a further day (no boundary at the installed commit date, no bounded
window), so the search terminates only by finding a qualifying date; on a
source where no date qualifies it returns nothing for every amount of fuel. -/
theorem scan_has_no_exhaustion (today : Int) (fetch : Int → Option Manifest) (r : Rust)
    (tc : Toolchain) (fuel : Nat) :
    (Rust.next today fetch r).2 ≠ none ∧
    ((∀ k : Nat, qualifies (nthState today fetch tc k) = false) →
      searchFirst today fetch tc fuel = none) := by
  constructor
  · simp [Rust.next]
  · intro hall
    cases h : searchFirst today fetch tc fuel with
    | none => rfl
    | some v =>
      obtain ⟨k, _, hv, hq, _⟩ := searchFirst_some today fetch tc fuel v h
      rw [hv, hall k] at hq
      cases hq

/-- Witness for C3: in the scenario the scan finds yesterday (offset 1). -/
theorem scan_returns_nearest_qualifying_witness :
    ∃ k : Nat, nthState 0 fetch₀ tc₀ 1 = nthState 0 fetch₀ tc₀ k ∧
      (nthState 0 fetch₀ tc₀ 1).offset = (k : Int) ∧
      (nthState 0 fetch₀ tc₀ 1).date = 0 - (k : Int) ∧
      (nthState 0 fetch₀ tc₀ 1).manifest = fetch₀ (0 - (k : Int)) ∧
      (nthState 0 fetch₀ tc₀ 1).manifest.isSome = true ∧
      (nthState 0 fetch₀ tc₀ 1).missing_components = [] ∧
      ∀ j : Nat, j < k → qualifies (nthState 0 fetch₀ tc₀ j) = false :=
  scan_returns_nearest_qualifying 0 fetch₀ tc₀ 10 (nthState 0 fetch₀ tc₀ 1) (by decide)

/-- Witness for the C2 amended theorem, applied to the empty release source. -/
theorem scan_has_no_exhaustion_witness :
    searchFirst 0 emptyFetch tc₀ 50 = none :=
  (scan_has_no_exhaustion 0 emptyFetch (rustNew 0 emptyFetch tc₀) tc₀ 50).2 (fun _ => rfl)

/-- C2 counterexample: with a source that never publishes, after 100 days the
scan has produced no outcome (no `Exhausted` exists) and the iterator still
yields a 101st candidate: no boundary at the installed commit date and no
fixed lookback window stops it. -/
theorem scan_termination_counterexample :
    searchFirst 0 emptyFetch tc₀ 100 = none ∧
    (Rust.next 0 emptyFetch (nthState 0 emptyFetch tc₀ 100)).2 =
      some (nthState 0 emptyFetch tc₀ 101) := by
  constructor
  · rfl
  · rfl

/-- C4 amended: with no descriptor for the date, `missing_components` returns
the empty set (not the full installed set), and the resolver filter still
rejects the date through its separate manifest-presence check. -/
theorem missing_components_without_manifest (r : Rust) (h : r.manifest = none) :
    r.missing_components = [] ∧ qualifies r = false := by
  constructor
  · unfold Rust.missing_components
    rw [h]
  · unfold qualifies
    rw [h]
    rfl

/-- C4 counterexample: with no manifest the reported missing set is empty even
though components are installed — rustc is installed but not reported. -/
theorem missing_components_counterexample :
    noManifestState.manifest = none ∧
    str "rustc" ∈ noManifestState.toolchain.components.map (fun c => c.name) ∧
    str "rustc" ∉ noManifestState.missing_components := by decide

/-- Witness for the C4 amended theorem at the concrete no-manifest state. -/
theorem missing_components_without_manifest_witness :
    noManifestState.missing_components = [] ∧ qualifies noManifestState = false :=
  missing_components_without_manifest noManifestState rfl

/-- C1 amended: "update" is recommended only when the first qualifying date is
today itself (offset 0) and the installed rust version compares strictly below
the found one; "current version is up to date" needs offset 0 as well; any
qualifying offset other than 0 — yesterday included, however new — produces
the "rustup default" pin recommendation. -/
theorem recommend_update_only_for_today (v : Rust) (inst : Except Str Version)
    (found : Option Version)
    (h1 : v.toolchain.manifest.get_pkg_version (str "rust") = .ok inst)
    (h2 : v.manifest_pkg_version (str "rust") = .ok found) :
    (v.offset = 0 → optVersionLt inst.toOption found = true → recommend v = .ok .update) ∧
    (v.offset = 0 → optVersionLt inst.toOption found = false →
      recommend v = .ok .upToDate) ∧
    (v.offset ≠ 0 → recommend v = .ok .pinDefault) := by
  have hr : recommend v =
      if v.offset = 0 then
        if optVersionLt inst.toOption found then .ok .update else .ok .upToDate
      else .ok .pinDefault := by
    unfold recommend
    rw [h1, h2]
  refine ⟨?_, ?_, ?_⟩
  · intro h0 hlt
    rw [hr, if_pos h0, if_pos hlt]
  · intro h0 hlt
    rw [hr, if_pos h0, if_neg (by simp [hlt])]
  · intro h0
    rw [hr, if_neg h0]

/-- C1 counterexample: in the resolver scenario the first qualifying date is
yesterday (offset 1) and its rust version is strictly newer than the installed
one, yet the program prints the pin recommendation, not "update". -/
theorem recommend_yesterday_counterexample :
    searchFirst 0 fetch₀ tc₀ 10 = some (nthState 0 fetch₀ tc₀ 1) ∧
    (nthState 0 fetch₀ tc₀ 1).offset ≠ 0 ∧
    tc₀.manifest.get_pkg_version (str "rust") = .ok (.ok instVer) ∧
    (nthState 0 fetch₀ tc₀ 1).manifest_pkg_version (str "rust") = .ok (some yVer) ∧
    optVersionLt (some instVer) (some yVer) = true ∧
    recommend (nthState 0 fetch₀ tc₀ 1) = .ok .pinDefault := by decide

/-- Witness for the C1 amended theorem at the scenario's qualifying state. -/
theorem recommend_update_only_for_today_witness :
    recommend (nthState 0 fetch₀ tc₀ 1) = .ok .pinDefault :=
  (recommend_update_only_for_today (nthState 0 fetch₀ tc₀ 1) (.ok instVer) (some yVer)
    (by decide) (by decide)).2.2 (by decide)

/-- C5: availability resolution substitutes the rename target when the name is
a key of the renames table, then looks the canonical name up in `pkg`, then the
target in the package's target map with fallback to the `"*"` wildcard; the
rls→rls-preview rename resolves as available, and a target map holding only
`"*"` (available) resolves as available for any requested target. -/
theorem availability_resolution (m : Manifest) (name tgt p : Str) (rn : Rename)
    (pt : PackageTargets) (info : PackageInfo) :
    (mapGet m.renames name = some rn →
      componentMissing m tgt name =
        (match m.get_pkg_for_target rn.«to» tgt with
         | some i => !i.available
         | none => true)) ∧
    (mapGet m.renames name = none →
      componentMissing m tgt name =
        (match m.get_pkg_for_target name tgt with
         | some i => !i.available
         | none => true)) ∧
    (mapGet m.pkg p = none → m.get_pkg_for_target p tgt = none) ∧
    (mapGet m.pkg p = some pt → mapGet pt.target tgt = some info →
      m.get_pkg_for_target p tgt = some info) ∧
    (mapGet m.pkg p = some pt → mapGet pt.target tgt = none →
      m.get_pkg_for_target p tgt = mapGet pt.target (str "*")) ∧
    (mapGet m.renames (str "rls") = some ⟨str "rls-preview"⟩ →
      mapGet m.pkg (str "rls-preview") = some pt → mapGet pt.target tgt = some info →
      info.available = true → componentMissing m tgt (str "rls") = false) ∧
    (mapGet m.pkg p = some pt → pt.target = [(str "*", info)] →
      m.get_pkg_for_target p tgt = some info) := by
  refine ⟨?_, ?_, ?_, ?_, ?_, ?_, ?_⟩
  · intro h
    unfold componentMissing
    rw [h]
  · intro h
    unfold componentMissing
    rw [h]
  · intro h
    unfold Manifest.get_pkg_for_target
    rw [h]
  · intro h1 h2
    unfold Manifest.get_pkg_for_target
    simp only [h1]
    rw [h2]
  · intro h1 h2
    unfold Manifest.get_pkg_for_target
    simp only [h1]
    rw [h2]
    rcases hstar : mapGet pt.target (str "*") with _ | pi <;> rfl
  · intro h1 h2 h3 h4
    have hres : m.get_pkg_for_target (str "rls-preview") tgt = some info := by
      unfold Manifest.get_pkg_for_target
      simp only [h2]
      rw [h3]
    simp only [componentMissing, h1, hres, h4, Bool.not_true]
  · intro h1 h2
    unfold Manifest.get_pkg_for_target
    simp only [h1, h2]
    by_cases hst : (str "*") = tgt
    · simp [mapGet, hst]
    · simp [mapGet, hst]

/-- Witness for C5: the rename instance and the wildcard instance, concretely. -/
theorem availability_resolution_witness :
    componentMissing mRls (str "T") (str "rls") = false ∧
    mStar.get_pkg_for_target (str "rust-src") (str "x86_64-pc-windows-gnu") =
      some availInfo := by
  constructor
  · exact (availability_resolution mRls (str "rls") (str "T") (str "rls")
      ⟨str "rls-preview"⟩ ⟨str "", [(str "T", availInfo)]⟩ availInfo).2.2.2.2.2.1
      (by decide) (by decide) (by decide) (by decide)
  · exact (availability_resolution mStar (str "x") (str "x86_64-pc-windows-gnu")
      (str "rust-src") ⟨str ""⟩ ⟨str "", [(str "*", availInfo)]⟩ availInfo).2.2.2.2.2.2
      (by decide) (by decide)

/-- C8 counterexample: an input with fewer than three whitespace tokens makes
`Version::from_str` panic (index out of bounds) instead of returning a
ParseError, and a malformed dotted-number part is accepted, not rejected. -/
theorem version_parse_counterexample :
    versionFromStr (str "1.33.0") = .panicked ∧
    isOkVersion (versionFromStr (str "garbage (h 2019-01-01)")) = true := by decide

/-- C8 amended: with fewer than three whitespace tokens the parse panics; with
three or more it returns ParseError exactly when the date is malformed or when
the first token splits on hyphens into exactly two parts whose second is an
unrecognized channel word; the dotted-number part is never validated (any
other hyphen structure parses successfully with channel Stable). -/
theorem version_parse_cases (s : Str) (ts : List Str) (v0 v1 v2 a b : Str)
    (rest : List Str) (d : Int) :
    (ts.length < 3 → versionFromTokens ts = .panicked) ∧
    (parseDate v2 = none →
      versionFromTokens (v0 :: v1 :: v2 :: rest) = .ok (.error (str "ParseError"))) ∧
    (parseDate v2 = some d → splitOn '-' v0 = [a, b] → Channel.fromStr b = none →
      versionFromTokens (v0 :: v1 :: v2 :: rest) = .ok (.error (str "Wrong channel"))) ∧
    (∀ ch, parseDate v2 = some d → splitOn '-' v0 = [a, b] →
      Channel.fromStr b = some ch →
      versionFromTokens (v0 :: v1 :: v2 :: rest) = .ok (.ok ⟨ch, a, ⟨v1, d⟩⟩)) ∧
    ((splitOn '-' v0).length ≠ 2 → parseDate v2 = some d →
      versionFromTokens (v0 :: v1 :: v2 :: rest) =
        .ok (.ok ⟨.Stable, (splitOn '-' v0).headD [], ⟨v1, d⟩⟩)) ∧
    (versionFromStr s = versionFromTokens ((splitWsp s).map trimParens)) := by
  refine ⟨?_, ?_, ?_, ?_, ?_, rfl⟩
  · intro h
    rcases ts with _ | ⟨x, _ | ⟨y, _ | ⟨z, r0⟩⟩⟩
    · rfl
    · rfl
    · rfl
    · simp only [List.length_cons] at h
      omega
  · intro h
    unfold versionFromTokens
    simp only [h]
  · intro h1 h2 h3
    unfold versionFromTokens
    simp only [h1, h2, h3]
  · intro ch h1 h2 h3
    unfold versionFromTokens
    simp only [h1, h2, h3]
  · intro h1 h2
    unfold versionFromTokens
    rcases hs : splitOn '-' v0 with _ | ⟨x, _ | ⟨y, _ | ⟨z, r0⟩⟩⟩
    · simp [hs, h2, Channel.fromStr]
    · simp [hs, h2, Channel.fromStr]
    · rw [hs] at h1
      simp at h1
    · simp [hs, h2, Channel.fromStr]

/-- Witness for the C8 amended theorem at concrete token lists. -/
theorem version_parse_cases_witness :
    versionFromTokens [str "1.31"] = .panicked ∧
    versionFromTokens [str "1.31-foo", str "h", str "2019-01-13"] =
      .ok (.error (str "Wrong channel")) ∧
    versionFromTokens [str "1.33.0-nightly", str "9eac38634", str "2018-12-31"] =
      .ok (.ok ⟨.Nightly, str "1.33.0", ⟨str "9eac38634", daysFromCivil 2018 12 31⟩⟩) := by
  have h := version_parse_cases (str "") [str "1.31"] (str "1.31-foo") (str "h")
    (str "2019-01-13") (str "1.31") (str "foo") [] (daysFromCivil 2019 1 13)
  have h2 := version_parse_cases (str "") [] (str "1.33.0-nightly") (str "9eac38634")
    (str "2018-12-31") (str "1.33.0") (str "nightly") [] (daysFromCivil 2018 12 31)
  exact ⟨h.1 (by decide), h.2.2.1 (by decide) (by decide) (by decide),
    h2.2.2.2.1 Channel.Nightly (by decide) (by decide) (by decide)⟩

theorem mapGet_setVersions (f : Str → Str) :
    ∀ (l : List (Str × PackageTargets)) (k : Str),
      mapGet (l.map (fun kv => (kv.1, (⟨f kv.2.version, kv.2.target⟩ : PackageTargets)))) k =
        (mapGet l k).map (fun pt => (⟨f pt.version, pt.target⟩ : PackageTargets)) := by
  intro l
  induction l with
  | nil => intro k; rfl
  | cons kv rest ih =>
    intro k
    obtain ⟨k0, v0⟩ := kv
    simp only [List.map_cons, mapGet]
    split
    · rfl
    · exact ih k

theorem setVersions_pkg (f : Str → Str) (m : Manifest) :
    (setVersions f m).pkg =
      m.pkg.map (fun kv => (kv.1, (⟨f kv.2.version, kv.2.target⟩ : PackageTargets))) := rfl

theorem get_pkg_for_target_setVersions (f : Str → Str) (m : Manifest) (p tgt : Str) :
    (setVersions f m).get_pkg_for_target p tgt = m.get_pkg_for_target p tgt := by
  unfold Manifest.get_pkg_for_target
  rw [setVersions_pkg, mapGet_setVersions]
  rcases h : mapGet m.pkg p with _ | pt
  · rfl
  · rfl

theorem missing_components_setVersions (tc : Toolchain) (off dt : Int) (f : Str → Str)
    (m : Manifest) :
    Rust.missing_components ⟨off, dt, tc, some (setVersions f m)⟩ =
      Rust.missing_components ⟨off, dt, tc, some m⟩ := by
  simp only [Rust.missing_components, componentMissing, get_pkg_for_target_setVersions]
  simp only [setVersions]

/-- C9 amended: during the scan a package whose version text fails to parse is
absorbed by `.ok()` into `None` (the rest of the descriptor stays usable, and
missing-component evaluation never reads version text at all); but
`Component::from` unwraps the parse result while building the local snapshot
and panics on such a package. -/
theorem parse_error_isolated (tc : Toolchain) (off dt : Int) (m : Manifest)
    (name e : Str) (f : Str → Str) :
    (Manifest.get_pkg_version m name = .ok (.error e) →
      Rust.manifest_pkg_version ⟨off, dt, tc, some m⟩ name = .ok none) ∧
    (Rust.missing_components ⟨off, dt, tc, some (setVersions f m)⟩ =
      Rust.missing_components ⟨off, dt, tc, some m⟩) ∧
    (qualifies ⟨off, dt, tc, some (setVersions f m)⟩ = qualifies ⟨off, dt, tc, some m⟩) ∧
    (∀ pv : PackageTargets, mapGet m.pkg name = some pv →
      versionFromStr pv.version = .ok (.error e) → componentFrom m name = .panicked) := by
  refine ⟨?_, missing_components_setVersions tc off dt f m, ?_, ?_⟩
  · intro h
    unfold Rust.manifest_pkg_version
    simp only [h]
    rfl
  · unfold qualifies
    rw [missing_components_setVersions tc off dt f m]
    rfl
  · intro pv h1 h2
    unfold componentFrom Manifest.get_pkg_version
    simp only [h1, h2]

/-- C9 counterexample: `Component::from` on a descriptor with one malformed
package version does not treat the package as unresolved — it panics. -/
theorem parse_error_counterexample :
    Manifest.get_pkg_version badManifest (str "clippy") =
      .ok (.error (str "Wrong channel")) ∧
    componentFrom badManifest (str "clippy") = .panicked := by decide

/-- Witness for the C9 amended theorem at the malformed descriptor. -/
theorem parse_error_isolated_witness :
    Rust.manifest_pkg_version ⟨0, 0, tc₀, some badManifest⟩ (str "clippy") = .ok none ∧
    componentFrom badManifest (str "clippy") = .panicked := by
  have h := parse_error_isolated tc₀ 0 0 badManifest (str "clippy")
    (str "Wrong channel") id
  exact ⟨h.1 (by decide),
    h.2.2.2 ⟨str "1.0.0-foo (h 2019-01-01)", [(str "T", availInfo)]⟩ (by decide) (by decide)⟩

theorem splitnFirst_append (sep : Char) :
    ∀ a b : Str, sep ∉ a → splitnFirst sep (a ++ sep :: b) = some (a, b) := by
  intro a
  induction a with
  | nil =>
    intro b h
    simp [splitnFirst]
  | cons x xs ih =>
    intro b h
    have hx : ¬ x = sep := fun he => h (List.mem_cons.2 (Or.inl he.symm))
    simp only [List.cons_append, splitnFirst, if_neg hx]
    have hr := ih b (fun hm => h (List.mem_cons_of_mem x hm))
    rw [show List.append xs (sep :: b) = xs ++ sep :: b from rfl, hr]

theorem splitnFirst_none (sep : Char) : ∀ s : Str, sep ∉ s → splitnFirst sep s = none := by
  intro s
  induction s with
  | nil => intro h; rfl
  | cons x xs ih =>
    intro h
    have hx : ¬ x = sep := fun he => h (List.mem_cons.2 (Or.inl he.symm))
    simp only [splitnFirst, if_neg hx]
    rw [ih (fun hm => h (List.mem_cons_of_mem x hm))]

/-- C10: the channel/target split happens only at the first hyphen — the
channel is the prefix before it, the target the entire remainder (multi-hyphen
targets stay whole) — and a string with no hyphen makes the function panic. -/
theorem channel_target_split_at_first_hyphen (a b s : Str) :
    ('-' ∉ a → get_channel_target (a ++ '-' :: b) = .ok (a, b)) ∧
    ('-' ∉ s → get_channel_target s = .panicked) := by
  constructor
  · intro h
    unfold get_channel_target
    rw [splitnFirst_append '-' a b h]
  · intro h
    unfold get_channel_target
    rw [splitnFirst_none '-' s h]

/-- Witness for C10: the multi-hyphen windows target is kept whole, and a
hyphen-free toolchain string panics. -/
theorem channel_target_split_witness :
    str "nightly" ++ '-' :: str "x86_64-pc-windows-gnu" =
      str "nightly-x86_64-pc-windows-gnu" ∧
    get_channel_target (str "nightly" ++ '-' :: str "x86_64-pc-windows-gnu") =
      .ok (str "nightly", str "x86_64-pc-windows-gnu") ∧
    get_channel_target (str "stable") = .panicked := by
  refine ⟨by decide, ?_, ?_⟩
  · exact (channel_target_split_at_first_hyphen (str "nightly")
      (str "x86_64-pc-windows-gnu") []).1 (by decide)
  · exact (channel_target_split_at_first_hyphen [] [] (str "stable")).2 (by decide)

end Rustupscheck
